import Mathlib

/-!
Shallow embedding of `nuitka/nodes/SliceNodes.py`: the slice node family
(slice assignment statement, slice deletion statement, slice lookup
expression, 2- and 3-argument builtin slice construction) and the rewrite
steps (`computeStatement` / `computeExpression`) they define.

Expression children are abstracted to the facts the slice nodes consult:
the certain-raise answer `willRaiseException(BaseException)`, the
per-category `mayRaiseException` answer, and compile-time-constant status.
External collaborators that are not part of the source file (the trace
collection, the node-making helpers, the specialization hooks, the
spec-based computation mixin) are modelled from the spec and marked as such.
-/

namespace SliceNodes

/-- An expression child node, abstracted to the facts the slice nodes
consult.  `constantNoneRef` is the distinguished `ExpressionConstantNoneRef`
node; `atom` is any other expression, carrying its certain-raise answer for
the `BaseException` category, its per-category may-raise answer (exception
categories are abstracted as naturals), and whether it is a compile-time
constant.  Modelled from the spec: a constant "none" reference raises no
exception and is a compile-time constant. -/
inductive ExprNode where
  | constantNoneRef
  | atom (willRaise : Bool) (mayRaise : Nat → Bool) (isConstant : Bool)

/-- The node's `willRaiseException(BaseException)` answer. -/
def ExprNode.willRaiseException : ExprNode → Bool
  | .constantNoneRef => false
  | .atom w _ _ => w

/-- The node's `mayRaiseException` answer for an exception category. -/
def ExprNode.mayRaiseException : ExprNode → Nat → Bool
  | .constantNoneRef, _ => false
  | .atom _ m _, t => m t

/-- Whether the node is a compile-time constant. -/
def ExprNode.isCompileTimeConstant : ExprNode → Bool
  | .constantNoneRef => true
  | .atom _ _ c => c

/-- An absent optional child never certainly raises; a present one answers
for itself.  This is the guard `x is not None and x.willRaiseException(...)`
used by the statement rewrite steps. -/
def optWillRaise : Option ExprNode → Bool
  | none => false
  | some e => e.willRaiseException

/-- Modelled from the spec: the trace collection is the per-unit
abstract-interpretation context; `onExpression` recursively optimizes a
child, installs the refined form in the tree, and returns it.  It is
abstracted here to the refinement map it applies to a child. -/
structure TraceCollection where
  refine : ExprNode → ExprNode

/-- The call `trace_collection.onExpression(child)` for a required child. -/
def TraceCollection.onExpression (tc : TraceCollection) (e : ExprNode) : ExprNode :=
  tc.refine e

/-- The call `trace_collection.onExpression(child, allow_none=True)` for an optional
child: an absent child stays absent. -/
def TraceCollection.onExpressionOpt (tc : TraceCollection) (e : Option ExprNode) :
    Option ExprNode :=
  e.map tc.refine

/-- A replacement statement form built by the node-making helpers:
either a single expression wrapped as an evaluate-for-effect statement
(`makeStatementExpressionOnlyReplacementNode`), or the tuple of optional
expressions handed to `makeStatementOnlyNodesFromExpressions` — kept as
given, absent slots included. -/
inductive Replacement where
  | exprOnly (expression : ExprNode)
  | exprList (expressions : List (Option ExprNode))

/-- Modelled from the spec: wraps one expression as an evaluate-for-effect
statement replacing the node. -/
def makeStatementExpressionOnlyReplacementNode (expression : ExprNode) : Replacement :=
  .exprOnly expression

/-- Modelled from the spec: builds a sequence of evaluate-for-effect
statements from a tuple of expressions; the tuple is recorded as passed,
with absent slots still in place. -/
def makeStatementOnlyNodesFromExpressions (expressions : List (Option ExprNode)) :
    Replacement :=
  .exprList expressions

/-- Modelled from the spec: the evaluate-for-effect steps of a replacement —
the present expressions in order (an absent slot contributes no step). -/
def Replacement.steps : Replacement → List ExprNode
  | .exprOnly e => [e]
  | .exprList es => es.filterMap id

/-- The outcome of a statement node's `computeStatement`: a side-effect-only
replacement with a change tag and a free-text justification, or delegation
to the subject's slice-assignment / slice-deletion specialization hook with
the refined children that were passed along. -/
inductive StmtComputeResult where
  | replaced (replacement : Replacement) (tag : String) (description : String)
  | delegatedSetSlice (subject : ExprNode) (lower upper : Option ExprNode) (value : ExprNode)
  | delegatedDelSlice (subject : ExprNode) (lower upper : Option ExprNode)

/-- The change tag of a statement rewrite result: `some tag` for a
replacement, `none` for a delegated result. -/
def StmtComputeResult.tag : StmtComputeResult → Option String
  | .replaced _ t _ => some t
  | _ => none

/-- The evaluate-for-effect steps of a statement rewrite result's
replacement, when it is one. -/
def StmtComputeResult.replacementSteps : StmtComputeResult → Option (List ExprNode)
  | .replaced r _ _ => some r.steps
  | _ => none

/-- The replacement a statement rewrite result carries, when it is one,
exactly as the node-making helper received it. -/
def StmtComputeResult.replacementForm : StmtComputeResult → Option Replacement
  | .replaced r _ _ => some r
  | _ => none

/-- The interpreter environment the module consults; `python_version` is the
target language version (300 stands for 3.0.0). -/
structure PythonEnv where
  python_version : Nat

/-- Node `StatementAssignmentSlice`: children assigned value (`source`), subject
(`expression`), and the optional `lower` and `upper` bounds. -/
structure StatementAssignmentSlice where
  source : ExprNode
  expression : ExprNode
  lower : Option ExprNode
  upper : Option ExprNode

/-- Constructor `StatementAssignmentSlice.__init__`: asserts the target version is below
3.0, then stores the children.  Construction fails (the assert fires)
for any version at or above 300. -/
def StatementAssignmentSlice.make (env : PythonEnv) (expression : ExprNode)
    (lower upper : Option ExprNode) (source : ExprNode) :
    Option StatementAssignmentSlice :=
  if env.python_version < 300 then
    some { source := source, expression := expression, lower := lower, upper := upper }
  else
    none

/-- Rewrite step `StatementAssignmentSlice.computeStatement`: refine the assigned value,
the subject, the lower bound and the upper bound, in that order, returning a
side-effect-only replacement tagged `new_raise` at the first refined child
that certainly raises; otherwise delegate to the subject's
`computeExpressionSetSlice` hook. -/
def StatementAssignmentSlice.computeStatement (self : StatementAssignmentSlice)
    (tc : TraceCollection) : StmtComputeResult :=
  let source := tc.onExpression self.source
  if source.willRaiseException then
    .replaced (makeStatementExpressionOnlyReplacementNode source) "new_raise"
      "Slice assignment raises exception in assigned value, removed assignment."
  else
    let lookup_source := tc.onExpression self.expression
    if lookup_source.willRaiseException then
      .replaced (makeStatementOnlyNodesFromExpressions [some source, some lookup_source])
        "new_raise"
        "Slice assignment raises exception in sliced value, removed assignment."
    else
      let lower := tc.onExpressionOpt self.lower
      if optWillRaise lower then
        .replaced
          (makeStatementOnlyNodesFromExpressions [some source, some lookup_source, lower])
          "new_raise"
          "Slice assignment raises exception in lower slice boundary value, removed assignment."
      else
        let upper := tc.onExpressionOpt self.upper
        if optWillRaise upper then
          .replaced
            (makeStatementOnlyNodesFromExpressions
              [some source, some lookup_source, lower, upper])
            "new_raise"
            "Slice assignment raises exception in upper slice boundary value, removed assignment."
        else
          .delegatedSetSlice lookup_source lower upper source

/-- Node `StatementDelSlice`: children subject (`expression`) and the optional
`lower` and `upper` bounds. -/
structure StatementDelSlice where
  expression : ExprNode
  lower : Option ExprNode
  upper : Option ExprNode

/-- Constructor `StatementDelSlice.__init__`: stores the children, performing no version
check; the environment parameter is taken only to record that construction
succeeds for every version (the source constructor never reads it). -/
def StatementDelSlice.make (_env : PythonEnv) (expression : ExprNode)
    (lower upper : Option ExprNode) : Option StatementDelSlice :=
  some { expression := expression, lower := lower, upper := upper }

/-- Rewrite step `StatementDelSlice.computeStatement`: refine the subject, then the lower
bound, then the upper bound, with the same certain-raise short-circuit as
slice assignment; otherwise delegate to `computeExpressionDelSlice`.  The
source refines the upper child in place and re-reads it from its slot;
since `onExpression` installs the refined child, the re-read yields the
refined form. -/
def StatementDelSlice.computeStatement (self : StatementDelSlice)
    (tc : TraceCollection) : StmtComputeResult :=
  let lookup_source := tc.onExpression self.expression
  if lookup_source.willRaiseException then
    .replaced (makeStatementExpressionOnlyReplacementNode lookup_source) "new_raise"
      "Slice del raises exception in sliced value, removed del"
  else
    let lower := tc.onExpressionOpt self.lower
    if optWillRaise lower then
      .replaced (makeStatementOnlyNodesFromExpressions [some lookup_source, lower])
        "new_raise"
        "Slice del raises exception in lower slice boundary value, removed del"
    else
      let upper := tc.onExpressionOpt self.upper
      if optWillRaise upper then
        .replaced (makeStatementOnlyNodesFromExpressions [some lookup_source, lower, upper])
          "new_raise"
          "Slice del raises exception in upper slice boundary value, removed del"
      else
        .delegatedDelSlice lookup_source lower upper

/-- Modelled from the spec: the `convertNoneConstantToNone` checker from the
node-making helpers — the fixed conversion rule normalizing a present
literal-none constant child to the structurally-absent slot state, and
leaving every other slot state alone. -/
def convertNoneConstantToNone : Option ExprNode → Option ExprNode
  | some .constantNoneRef => none
  | x => x

/-- Node `ExpressionSliceLookup`: children subject (`expression`) and the
optional `lower` and `upper` bounds. -/
structure ExpressionSliceLookup where
  expression : ExprNode
  lower : Option ExprNode
  upper : Option ExprNode

/-- Constructor `ExpressionSliceLookup.__init__`: asserts the target version is below
3.0, then stores the children.  Modelled from the spec for the child
plumbing: the node's `checkers` entry applies `convertNoneConstantToNone`
to the `lower` and `upper` slots once, as they are stored at
construction. -/
def ExpressionSliceLookup.make (env : PythonEnv) (expression : ExprNode)
    (lower upper : Option ExprNode) : Option ExpressionSliceLookup :=
  if env.python_version < 300 then
    some
      { expression := expression
        lower := convertNoneConstantToNone lower
        upper := convertNoneConstantToNone upper }
  else
    none

/-- The outcome of `ExpressionSliceLookup.computeExpression`: delegation to
the subject's `computeExpressionSlice` specialization hook, recording the
arguments passed to it. -/
inductive LookupComputeResult where
  | delegatedSlice (subject : ExprNode) (lower upper : Option ExprNode)

/-- Rewrite step `ExpressionSliceLookup.computeExpression`: reads the subject and the
stored bound slots and unconditionally delegates to the subject's
`computeExpressionSlice` hook; the trace collection is only passed along,
no child is refined and no certain-raise test is made here. -/
def ExpressionSliceLookup.computeExpression (self : ExpressionSliceLookup)
    (_tc : TraceCollection) : LookupComputeResult :=
  .delegatedSlice self.expression self.lower self.upper

/-- Capability query `ExpressionSliceLookup.isKnownToBeIterable`: always "unknown", deferring
to an external iterability registry. -/
def ExpressionSliceLookup.isKnownToBeIterable (_count : Nat) : Option Bool :=
  none

/-- Node `ExpressionBuiltinSlice2`: the 2-argument builtin slice construction,
children `start` and `stop`. -/
structure ExpressionBuiltinSlice2 where
  start : ExprNode
  stop : ExprNode

/-- Node `ExpressionBuiltinSlice3`: the 3-argument builtin slice construction,
children `start`, `stop` and `step`. -/
structure ExpressionBuiltinSlice3 where
  start : ExprNode
  stop : ExprNode
  step : ExprNode

/-- A node built by the builtin-slice construction factory: one of the two
construction kinds. -/
inductive BuiltinSliceNode where
  | slice2 (node : ExpressionBuiltinSlice2)
  | slice3 (node : ExpressionBuiltinSlice3)

/-- Factory `makeExpressionBuiltinSlice`: a structurally absent `start` or `stop`
becomes a constant-none literal node; an absent `step` selects the
2-argument kind, any present `step` the 3-argument kind. -/
def makeExpressionBuiltinSlice (start stop step : Option ExprNode) : BuiltinSliceNode :=
  let start := match start with
    | none => ExprNode.constantNoneRef
    | some s => s
  let stop := match stop with
    | none => ExprNode.constantNoneRef
    | some s => s
  match step with
  | none => .slice2 { start := start, stop := stop }
  | some step => .slice3 { start := start, stop := stop, step := step }

/-- Query `ExpressionBuiltinSlice2.mayRaiseException`: the logical OR of the two
argument children's answers for the queried category. -/
def ExpressionBuiltinSlice2.mayRaiseException (self : ExpressionBuiltinSlice2)
    (exception_type : Nat) : Bool :=
  self.start.mayRaiseException exception_type || self.stop.mayRaiseException exception_type

/-- Query `ExpressionBuiltinSlice3.mayRaiseException`: the logical OR of the three
argument children's answers for the queried category. -/
def ExpressionBuiltinSlice3.mayRaiseException (self : ExpressionBuiltinSlice3)
    (exception_type : Nat) : Bool :=
  self.start.mayRaiseException exception_type
    || self.stop.mayRaiseException exception_type
    || self.step.mayRaiseException exception_type

/-- The outcome of an expression node's rewrite step, after the shared
spec-based computation has been applied: unchanged, folded to a compile-time
constant, or reduced to evaluate-for-effect steps ending in a certain raise. -/
inductive ExprRewriteOutcome where
  | unchanged
  | foldedConstant (description : String)
  | raiseOnly (steps : List ExprNode) (description : String)

/-- The refined arguments up to and including the first one that certainly
raises. -/
def throughFirstRaise : List ExprNode → List ExprNode
  | [] => []
  | e :: es => if e.willRaiseException then [e] else e :: throughFirstRaise es

/-- Modelled from the spec: the shared spec-based computation
(`computeBuiltinSpec` of the spec-based computation mixin) refines every
argument via the trace collection and matches the refined facts against the
builtin's declared specification — all-constant arguments fold to a
compile-time constant; an argument proven to certainly raise reduces the
expression to the preceding refined arguments followed by the raising one,
tagged as a new raise; otherwise the node is unchanged. -/
def computeBuiltinSpec (tc : TraceCollection) (given_values : List ExprNode) :
    ExprRewriteOutcome :=
  let refined := given_values.map tc.refine
  if refined.all (fun e => e.isCompileTimeConstant) then
    .foldedConstant "Builtin call to slice precomputed."
  else if refined.any (fun e => e.willRaiseException) then
    .raiseOnly (throughFirstRaise refined) "Builtin call to slice raises exception."
  else
    .unchanged

/-- Rewrite step `ExpressionBuiltinSlice2.computeExpression`: delegates to the shared
spec-based computation over `(start, stop)`. -/
def ExpressionBuiltinSlice2.computeExpression (self : ExpressionBuiltinSlice2)
    (tc : TraceCollection) : ExprRewriteOutcome :=
  computeBuiltinSpec tc [self.start, self.stop]

/-- Rewrite step `ExpressionBuiltinSlice3.computeExpression`: delegates to the shared
spec-based computation over `(start, stop, step)`. -/
def ExpressionBuiltinSlice3.computeExpression (self : ExpressionBuiltinSlice3)
    (tc : TraceCollection) : ExprRewriteOutcome :=
  computeBuiltinSpec tc [self.start, self.stop, self.step]

/-- A statement rewrite outcome as the driver sees it once the subject's
specialization hook has answered: the statement is unchanged, or it has been
replaced. -/
inductive StmtRewriteOutcome where
  | unchanged
  | replacedBy (replacement : Replacement) (tag : String) (description : String)

/-- Modelled from the spec: the default slice-assignment / slice-deletion
specialization hook leaves the statement unchanged, so a delegated result
becomes the outcome "unchanged". -/
def StmtComputeResult.withDefaultHooks : StmtComputeResult → StmtRewriteOutcome
  | .replaced r t d => .replacedBy r t d
  | .delegatedSetSlice _ _ _ _ => .unchanged
  | .delegatedDelSlice _ _ _ => .unchanged

/-- The children of a slice assignment in runtime evaluation order —
assigned value, subject, lower bound, upper bound — with the optional slots
as stored. -/
def StatementAssignmentSlice.childrenInEvalOrder (self : StatementAssignmentSlice) :
    List (Option ExprNode) :=
  [some self.source, some self.expression, self.lower, self.upper]

/-- The children of a slice deletion in runtime evaluation order — subject,
lower bound, upper bound — with the optional slots as stored. -/
def StatementDelSlice.childrenInEvalOrder (self : StatementDelSlice) :
    List (Option ExprNode) :=
  [some self.expression, self.lower, self.upper]

/-- The present children of a slice assignment, refined by the trace
collection, in evaluation order: the list the rewrite step walks. -/
def StatementAssignmentSlice.refinedChildren (self : StatementAssignmentSlice)
    (tc : TraceCollection) : List ExprNode :=
  (self.childrenInEvalOrder.map tc.onExpressionOpt).filterMap id

/-- The present children of a slice deletion, refined by the trace
collection, in evaluation order. -/
def StatementDelSlice.refinedChildren (self : StatementDelSlice)
    (tc : TraceCollection) : List ExprNode :=
  (self.childrenInEvalOrder.map tc.onExpressionOpt).filterMap id

/-- The evaluation-order position of the first child that certainly raises:
`some k` when the child at index `k` is the first with a positive
certain-raise answer, `none` when no child has one. -/
def firstRaiseIdx : List ExprNode → Option Nat
  | [] => none
  | e :: es =>
    if e.willRaiseException then some 0 else (firstRaiseIdx es).map (fun k => k + 1)

/-- The runtime behavior of one evaluation, for one fixed program input: the
trace of abstract side effects it performs (numbered) and the category of
the exception it raises after them, if any. -/
structure Behavior where
  effects : List Nat
  raised : Option Nat

/-- Sequencing of behaviors: a raise in the first part propagates and the
second part is never reached; otherwise the effects accumulate. -/
def Behavior.seq (a b : Behavior) : Behavior :=
  match a.raised with
  | some _ => a
  | none => { effects := a.effects ++ b.effects, raised := b.raised }

/-- Evaluating a list of expressions, in order, purely for effect, under a
semantics `sem` giving each expression node its behavior on the fixed
input. -/
def runSteps (sem : ExprNode → Behavior) : List ExprNode → Behavior
  | [] => { effects := [], raised := none }
  | e :: es => (sem e).seq (runSteps sem es)

/-- The observable behavior of executing a slice assignment on a fixed
input: the children evaluate in order, then the slice-assignment operation
itself (an abstract behavior `op` supplied by the subject's type) runs. -/
def StatementAssignmentSlice.observe (self : StatementAssignmentSlice)
    (sem : ExprNode → Behavior) (op : Behavior) : Behavior :=
  (runSteps sem (self.childrenInEvalOrder.filterMap id)).seq op

/-- The observable behavior of executing a slice deletion on a fixed input:
the children evaluate in order, then the slice-deletion operation `op`
runs. -/
def StatementDelSlice.observe (self : StatementDelSlice)
    (sem : ExprNode → Behavior) (op : Behavior) : Behavior :=
  (runSteps sem (self.childrenInEvalOrder.filterMap id)).seq op

/-- The observable behavior of a replacement: its evaluate-for-effect steps
run in order, and nothing else. -/
def Replacement.observe (self : Replacement) (sem : ExprNode → Behavior) : Behavior :=
  runSteps sem self.steps

/-- The observable behavior of a statement rewrite result: a replacement
observes as its steps; a delegated result observes as the statement with the
refined children installed (the default hook leaves it unchanged), its slice
operation running after the children. -/
def StmtComputeResult.observe (res : StmtComputeResult) (sem : ExprNode → Behavior)
    (setOp delOp : Behavior) : Behavior :=
  match res with
  | .replaced r _ _ => r.observe sem
  | .delegatedSetSlice subj lower upper value =>
    (runSteps sem (([some value, some subj, lower, upper] :
      List (Option ExprNode)).filterMap id)).seq setOp
  | .delegatedDelSlice subj lower upper =>
    (runSteps sem (([some subj, lower, upper] :
      List (Option ExprNode)).filterMap id)).seq delOp

/-- The children of a slice lookup in runtime evaluation order — subject,
lower bound, upper bound — with the optional slots as stored. -/
def ExpressionSliceLookup.childrenInEvalOrder (self : ExpressionSliceLookup) :
    List (Option ExprNode) :=
  [some self.expression, self.lower, self.upper]

/-- The observable behavior of evaluating a slice lookup on a fixed input:
the children evaluate in order, then the slice-read operation itself (an
abstract behavior `readOp` supplied by the subject's type) runs. -/
def ExpressionSliceLookup.observe (self : ExpressionSliceLookup)
    (sem : ExprNode → Behavior) (readOp : Behavior) : Behavior :=
  (runSteps sem (self.childrenInEvalOrder.filterMap id)).seq readOp

/-- The observable behavior of a lookup rewrite result: the delegation (the
default hook leaves the node in place) observes as the lookup with the
passed children installed, its read operation running after them. -/
def LookupComputeResult.observe (res : LookupComputeResult)
    (sem : ExprNode → Behavior) (readOp : Behavior) : Behavior :=
  match res with
  | .delegatedSlice subj lower upper =>
    (runSteps sem (([some subj, lower, upper] :
      List (Option ExprNode)).filterMap id)).seq readOp

/-- Modelled from the spec: the default slice-read specialization hook
leaves the expression unchanged, so the lookup's delegated result becomes
the outcome "unchanged". -/
def LookupComputeResult.withDefaultHook : LookupComputeResult → ExprRewriteOutcome
  | .delegatedSlice _ _ _ => .unchanged

/-- The arguments of a 2-argument builtin slice construction in runtime
evaluation order: start, stop. -/
def ExpressionBuiltinSlice2.argsInEvalOrder (self : ExpressionBuiltinSlice2) :
    List ExprNode :=
  [self.start, self.stop]

/-- The arguments of a 3-argument builtin slice construction in runtime
evaluation order: start, stop, step. -/
def ExpressionBuiltinSlice3.argsInEvalOrder (self : ExpressionBuiltinSlice3) :
    List ExprNode :=
  [self.start, self.stop, self.step]

/-- The observable behavior of evaluating a 2-argument builtin slice
construction: the arguments evaluate in order; the construction step itself
adds no effect and raises nothing (per the source, the node's may-raise
answer is exactly the OR of its children's, and its side effects come only
from its children). -/
def ExpressionBuiltinSlice2.observe (self : ExpressionBuiltinSlice2)
    (sem : ExprNode → Behavior) : Behavior :=
  runSteps sem self.argsInEvalOrder

/-- The observable behavior of evaluating a 3-argument builtin slice
construction: the arguments evaluate in order; the construction step itself
adds no effect and raises nothing. -/
def ExpressionBuiltinSlice3.observe (self : ExpressionBuiltinSlice3)
    (sem : ExprNode → Behavior) : Behavior :=
  runSteps sem self.argsInEvalOrder

/-- The observable behavior of an expression rewrite outcome, given the
observable of the node when it is left unchanged: a folded compile-time
constant evaluates with no effect and no raise; a raise-only reduction
evaluates its steps and nothing else. -/
def ExprRewriteOutcome.observe (out : ExprRewriteOutcome)
    (sem : ExprNode → Behavior) (unchangedObs : Behavior) : Behavior :=
  match out with
  | .unchanged => unchangedObs
  | .foldedConstant _ => { effects := [], raised := none }
  | .raiseOnly steps _ => runSteps sem steps

/-- A sample expression that neither certainly nor possibly raises. -/
def okAtom : ExprNode := .atom false (fun _ => false) false

/-- A sample expression proven to certainly raise. -/
def raiseAtom : ExprNode := .atom true (fun _ => false) false

/-- A sample compile-time-constant expression. -/
def constAtom : ExprNode := .atom false (fun _ => false) true

/-- A trace collection whose refinement leaves every child unchanged. -/
def idTrace : TraceCollection := { refine := fun e => e }

/-- A semantics agreeing with the certain-raise oracle: a node raises
category 0 exactly when its certain-raise answer is positive, with no side
effects. -/
def oracleSem : ExprNode → Behavior := fun e =>
  { effects := [], raised := if e.willRaiseException then some 0 else none }

theorem Behavior.seq_of_raised (a b : Behavior) (h : a.raised.isSome) : a.seq b = a := by
  rcases a with ⟨ae, ar⟩
  cases ar with
  | none => simp at h
  | some c => simp [Behavior.seq]

theorem Behavior.raised_seq (a b : Behavior) : (a.seq b).raised = a.raised.or b.raised := by
  rcases a with ⟨ae, ar⟩
  cases ar <;> simp [Behavior.seq, Option.or]

theorem Behavior.seq_assoc (a b c : Behavior) : (a.seq b).seq c = a.seq (b.seq c) := by
  rcases a with ⟨ae, ar⟩
  rcases b with ⟨be, br⟩
  cases ar <;> cases br <;> simp [Behavior.seq, List.append_assoc]

theorem runSteps_append (sem : ExprNode → Behavior) (l1 l2 : List ExprNode) :
    runSteps sem (l1 ++ l2) = (runSteps sem l1).seq (runSteps sem l2) := by
  induction l1 with
  | nil =>
    simp [runSteps, Behavior.seq]
  | cons e es ih =>
    simp only [List.cons_append, runSteps, List.append_eq, ih, Behavior.seq_assoc]

theorem runSteps_raised_of_mem (sem : ExprNode → Behavior) (l : List ExprNode)
    (e : ExprNode) (he : e ∈ l) (h : (sem e).raised.isSome) :
    (runSteps sem l).raised.isSome := by
  induction l with
  | nil => cases he
  | cons a as ih =>
    rcases List.mem_cons.mp he with rfl | hmem
    · rw [runSteps, Behavior.raised_seq]
      cases hc : (sem e).raised with
      | none => rw [hc] at h; simp at h
      | some c => simp [hc, Option.or]
    · rw [runSteps, Behavior.raised_seq]
      cases hc : (sem a).raised with
      | none => simp only [hc, Option.or]; exact ih hmem
      | some c => simp [hc, Option.or]

theorem Behavior.seq_skip (a : Behavior) : a.seq { effects := [], raised := none } = a := by
  rcases a with ⟨ae, ar⟩
  cases ar <;> simp [Behavior.seq]

theorem runSteps_map_refine (sem : ExprNode → Behavior) (tc : TraceCollection)
    (hrefine : ∀ e, sem (tc.refine e) = sem e) (l : List ExprNode) :
    runSteps sem (l.map tc.refine) = runSteps sem l := by
  induction l with
  | nil => rfl
  | cons e es ih => simp only [List.map_cons, runSteps, hrefine, ih]

theorem filterMap_id_map_optionMap (r : ExprNode → ExprNode) (xs : List (Option ExprNode)) :
    (xs.map (Option.map r)).filterMap id = (xs.filterMap id).map r := by
  induction xs with
  | nil => rfl
  | cons x xs ih => cases x <;> simp [ih]

theorem runSteps_through_eq (sem : ExprNode → Behavior)
    (hsound : ∀ e, e.willRaiseException = true → (sem e).raised.isSome)
    (l : List ExprNode) (h : l.any (fun e => e.willRaiseException) = true) (op : Behavior) :
    (runSteps sem l).seq op = runSteps sem (throughFirstRaise l) := by
  induction l with
  | nil => simp at h
  | cons a as ih =>
    by_cases ha : a.willRaiseException = true
    · have hr := hsound a ha
      rw [throughFirstRaise]
      simp only [ha, if_true, runSteps, Behavior.seq_skip]
      rw [Behavior.seq_assoc, Behavior.seq_of_raised _ _ hr]
    · have has : as.any (fun e => e.willRaiseException) = true := by
        rcases List.any_eq_true.mp h with ⟨e, he, hw⟩
        rcases List.mem_cons.mp he with rfl | hmem
        · exact absurd hw ha
        · exact List.any_eq_true.mpr ⟨e, hmem, hw⟩
      rw [throughFirstRaise]
      simp only [ha, if_false, runSteps]
      rw [Behavior.seq_assoc, ih has]

theorem runSteps_eq_skip (sem : ExprNode → Behavior) (l : List ExprNode)
    (h : ∀ e ∈ l, sem e = { effects := [], raised := none }) :
    runSteps sem l = { effects := [], raised := none } := by
  induction l with
  | nil => rfl
  | cons a as ih =>
    rw [runSteps, h a (by simp), ih (fun e he => h e (by simp [he]))]
    rfl

theorem computeBuiltinSpec_preserves (sem : ExprNode → Behavior) (tc : TraceCollection)
    (hrefine : ∀ e, sem (tc.refine e) = sem e)
    (hsound : ∀ e, e.willRaiseException = true → (sem e).raised.isSome)
    (hpure : ∀ e, e.isCompileTimeConstant = true → e.willRaiseException = false →
      sem e = { effects := [], raised := none })
    (args : List ExprNode)
    (hcoh : ∀ x ∈ args.map tc.refine, x.isCompileTimeConstant = true →
      x.willRaiseException = false) :
    (computeBuiltinSpec tc args).observe sem (runSteps sem args) = runSteps sem args := by
  unfold computeBuiltinSpec
  by_cases hc : (args.map tc.refine).all (fun e => e.isCompileTimeConstant) = true
  · have htriv : ∀ e ∈ args, sem e = { effects := [], raised := none } := by
      intro e he
      have hmem : tc.refine e ∈ args.map tc.refine := List.mem_map_of_mem _ he
      have h1 : (tc.refine e).isCompileTimeConstant = true :=
        List.all_eq_true.mp hc _ hmem
      rw [← hrefine e]
      exact hpure _ h1 (hcoh _ hmem h1)
    simp only [hc, if_true, ExprRewriteOutcome.observe, runSteps_eq_skip sem args htriv]
  · by_cases hr : (args.map tc.refine).any (fun e => e.willRaiseException) = true
    · simp only [hc, hr, if_true, Bool.false_eq_true, if_false,
        ExprRewriteOutcome.observe]
      have h1 := runSteps_through_eq sem hsound _ hr { effects := [], raised := none }
      rw [← h1, Behavior.seq_skip, runSteps_map_refine sem tc hrefine]
    · simp only [hc, hr, Bool.false_eq_true, if_false, ExprRewriteOutcome.observe]

theorem firstRaiseIdx_take (l : List ExprNode) (k : Nat)
    (hk : firstRaiseIdx l = some k) : throughFirstRaise l = l.take (k + 1) := by
  induction l generalizing k with
  | nil => simp [firstRaiseIdx] at hk
  | cons e es ih =>
    cases hw : e.willRaiseException with
    | true =>
      simp only [firstRaiseIdx, hw, if_true, Option.some.injEq] at hk
      subst hk
      simp [throughFirstRaise, hw]
    | false =>
      simp only [firstRaiseIdx, hw, Bool.false_eq_true, if_false,
        Option.map_eq_some'] at hk
      obtain ⟨j, hj, hjk⟩ := hk
      subst hjk
      simp [throughFirstRaise, hw, List.take_succ_cons, ih j hj]

theorem firstRaiseIdx_get (l : List ExprNode) (k : Nat)
    (hk : firstRaiseIdx l = some k) :
    ∃ e, l.get? k = some e ∧ e.willRaiseException = true := by
  induction l generalizing k with
  | nil => simp [firstRaiseIdx] at hk
  | cons e es ih =>
    cases hw : e.willRaiseException with
    | true =>
      simp only [firstRaiseIdx, hw, if_true, Option.some.injEq] at hk
      subst hk
      exact ⟨e, rfl, hw⟩
    | false =>
      simp only [firstRaiseIdx, hw, Bool.false_eq_true, if_false,
        Option.map_eq_some'] at hk
      obtain ⟨j, hj, hjk⟩ := hk
      subst hjk
      simpa [List.get?] using ih j hj

theorem assign_refinedChildren_eq_map (tc : TraceCollection) (n : StatementAssignmentSlice) :
    n.refinedChildren tc = (n.childrenInEvalOrder.filterMap id).map tc.refine :=
  filterMap_id_map_optionMap tc.refine n.childrenInEvalOrder

theorem del_refinedChildren_eq_map (tc : TraceCollection) (n : StatementDelSlice) :
    n.refinedChildren tc = (n.childrenInEvalOrder.filterMap id).map tc.refine :=
  filterMap_id_map_optionMap tc.refine n.childrenInEvalOrder

theorem assign_computeStatement_raise (tc : TraceCollection) (n : StatementAssignmentSlice)
    (h : (n.refinedChildren tc).any (fun e => e.willRaiseException) = true) :
    (n.computeStatement tc).tag = some "new_raise" ∧
      (n.computeStatement tc).replacementSteps =
        some (throughFirstRaise (n.refinedChildren tc)) := by
  rcases n with ⟨s, e, l, u⟩
  rcases l with _ | l0 <;> rcases u with _ | u0 <;>
    simp only [StatementAssignmentSlice.computeStatement,
      StatementAssignmentSlice.refinedChildren,
      StatementAssignmentSlice.childrenInEvalOrder, TraceCollection.onExpression,
      TraceCollection.onExpressionOpt, Option.map_none', Option.map_some', List.map_cons,
      List.map_nil, List.filterMap_cons, List.filterMap_nil, id_eq, optWillRaise,
      makeStatementExpressionOnlyReplacementNode,
      makeStatementOnlyNodesFromExpressions] at h ⊢ <;>
    split_ifs with h1 h2 h3 h4 <;>
    simp_all [StmtComputeResult.tag, StmtComputeResult.replacementSteps, Replacement.steps,
      throughFirstRaise, List.filterMap_cons, List.filterMap_nil]

theorem assign_computeStatement_noraise (tc : TraceCollection) (n : StatementAssignmentSlice)
    (h : (n.refinedChildren tc).any (fun e => e.willRaiseException) = false) :
    n.computeStatement tc =
      .delegatedSetSlice (tc.refine n.expression) (n.lower.map tc.refine)
        (n.upper.map tc.refine) (tc.refine n.source) := by
  rcases n with ⟨s, e, l, u⟩
  rcases l with _ | l0 <;> rcases u with _ | u0 <;>
    simp only [StatementAssignmentSlice.refinedChildren,
      StatementAssignmentSlice.childrenInEvalOrder, TraceCollection.onExpressionOpt,
      Option.map_none', Option.map_some', List.map_cons, List.map_nil, List.filterMap_cons,
      List.filterMap_nil, id_eq, List.any_cons, List.any_nil, Bool.or_eq_false_iff] at h <;>
    simp_all [StatementAssignmentSlice.computeStatement, TraceCollection.onExpression,
      TraceCollection.onExpressionOpt, optWillRaise]

theorem del_computeStatement_raise (tc : TraceCollection) (n : StatementDelSlice)
    (h : (n.refinedChildren tc).any (fun e => e.willRaiseException) = true) :
    (n.computeStatement tc).tag = some "new_raise" ∧
      (n.computeStatement tc).replacementSteps =
        some (throughFirstRaise (n.refinedChildren tc)) := by
  rcases n with ⟨e, l, u⟩
  rcases l with _ | l0 <;> rcases u with _ | u0 <;>
    simp only [StatementDelSlice.computeStatement, StatementDelSlice.refinedChildren,
      StatementDelSlice.childrenInEvalOrder, TraceCollection.onExpression,
      TraceCollection.onExpressionOpt, Option.map_none', Option.map_some', List.map_cons,
      List.map_nil, List.filterMap_cons, List.filterMap_nil, id_eq, optWillRaise,
      makeStatementExpressionOnlyReplacementNode,
      makeStatementOnlyNodesFromExpressions] at h ⊢ <;>
    split_ifs with h1 h2 h3 <;>
    simp_all [StmtComputeResult.tag, StmtComputeResult.replacementSteps, Replacement.steps,
      throughFirstRaise, List.filterMap_cons, List.filterMap_nil]

theorem del_computeStatement_noraise (tc : TraceCollection) (n : StatementDelSlice)
    (h : (n.refinedChildren tc).any (fun e => e.willRaiseException) = false) :
    n.computeStatement tc =
      .delegatedDelSlice (tc.refine n.expression) (n.lower.map tc.refine)
        (n.upper.map tc.refine) := by
  rcases n with ⟨e, l, u⟩
  rcases l with _ | l0 <;> rcases u with _ | u0 <;>
    simp only [StatementDelSlice.refinedChildren, StatementDelSlice.childrenInEvalOrder,
      TraceCollection.onExpressionOpt, Option.map_none', Option.map_some', List.map_cons,
      List.map_nil, List.filterMap_cons, List.filterMap_nil, id_eq, List.any_cons,
      List.any_nil, Bool.or_eq_false_iff] at h <;>
    simp_all [StatementDelSlice.computeStatement, TraceCollection.onExpression,
      TraceCollection.onExpressionOpt, optWillRaise]

/-- C4: for every call to `makeExpressionBuiltinSlice`, a structurally
absent step argument yields the 2-argument construction kind and any
supplied step value — a constant-none literal node included — yields the
3-argument kind; in either case a structurally absent start or stop
argument is replaced by a constant-none literal node before construction. -/
theorem claim_C4_factory_kind_selection (start stop : Option ExprNode) :
    makeExpressionBuiltinSlice start stop none =
      .slice2 { start := start.getD .constantNoneRef, stop := stop.getD .constantNoneRef } ∧
    ∀ step : ExprNode,
      makeExpressionBuiltinSlice start stop (some step) =
        .slice3
          { start := start.getD .constantNoneRef
            stop := stop.getD .constantNoneRef
            step := step } := by
  constructor
  · cases start <;> cases stop <;> rfl
  · intro step
    cases start <;> cases stop <;> rfl

/-- C5: for both builtin-slice construction kinds and every exception
category, the node's may-raise answer is true exactly when at least one of
its argument children's may-raise answers for that category is true. -/
theorem claim_C5_mayRaise_is_or (n2 : ExpressionBuiltinSlice2)
    (n3 : ExpressionBuiltinSlice3) (t : Nat) :
    (n2.mayRaiseException t = true ↔
      (n2.start.mayRaiseException t = true ∨ n2.stop.mayRaiseException t = true)) ∧
    (n3.mayRaiseException t = true ↔
      (n3.start.mayRaiseException t = true ∨ n3.stop.mayRaiseException t = true ∨
        n3.step.mayRaiseException t = true)) := by
  constructor
  · simp [ExpressionBuiltinSlice2.mayRaiseException, Bool.or_eq_true]
  · simp [ExpressionBuiltinSlice3.mayRaiseException, Bool.or_eq_true, or_assoc]

/-- C6: every slice-lookup expression's rewrite step unconditionally
delegates to the subject's slice-lookup specialization hook at the current
lower and upper children: the result is the same for every trace
collection, and the children are passed exactly as stored, with no
refinement and no certain-raise short-circuit. -/
theorem claim_C6_lookup_delegates_unconditionally (self : ExpressionSliceLookup)
    (tc : TraceCollection) :
    self.computeExpression tc =
      .delegatedSlice self.expression self.lower self.upper :=
  rfl

/-- C9: constructing a slice-assignment statement or a slice-lookup
expression succeeds exactly when the target version is below 3.0, while
constructing a slice-deletion statement succeeds for every version. -/
theorem claim_C9_version_asserts (env : PythonEnv) (e s : ExprNode)
    (l u : Option ExprNode) :
    ((StatementAssignmentSlice.make env e l u s).isSome = true ↔
      env.python_version < 300) ∧
    ((ExpressionSliceLookup.make env e l u).isSome = true ↔
      env.python_version < 300) ∧
    (StatementDelSlice.make env e l u).isSome = true := by
  refine ⟨?_, ?_, ?_⟩
  · by_cases h : env.python_version < 300 <;> simp [StatementAssignmentSlice.make, h]
  · by_cases h : env.python_version < 300 <;> simp [ExpressionSliceLookup.make, h]
  · simp [StatementDelSlice.make]

theorem convertNoneConstantToNone_ne (x : Option ExprNode) :
    convertNoneConstantToNone x ≠ some ExprNode.constantNoneRef := by
  rcases x with _ | y
  · simp [convertNoneConstantToNone]
  · cases y <;> simp [convertNoneConstantToNone]

/-- C7: for every slice-lookup expression, a lower or upper child supplied
as a literal-none constant node is normalized to the structurally-absent
slot state at construction by the fixed conversion rule
`convertNoneConstantToNone`; afterwards the stored slots are never a
present literal-none child, and the rewrite step reads them back verbatim
instead of re-deriving the slot status. -/
theorem claim_C7_slot_normalization (env : PythonEnv) (e : ExprNode)
    (l u : Option ExprNode) (n : ExpressionSliceLookup)
    (hmk : ExpressionSliceLookup.make env e l u = some n) :
    (n.lower = convertNoneConstantToNone l ∧ n.upper = convertNoneConstantToNone u) ∧
    (l = some .constantNoneRef → n.lower = none) ∧
    (u = some .constantNoneRef → n.upper = none) ∧
    n.lower ≠ some ExprNode.constantNoneRef ∧
    n.upper ≠ some ExprNode.constantNoneRef ∧
    ∀ tc : TraceCollection,
      n.computeExpression tc = .delegatedSlice n.expression n.lower n.upper := by
  by_cases hv : env.python_version < 300
  · simp only [ExpressionSliceLookup.make, hv, if_true, Option.some.injEq] at hmk
    subst hmk
    refine ⟨⟨rfl, rfl⟩, ?_, ?_, ?_, ?_, fun _ => rfl⟩
    · intro hl; subst hl; rfl
    · intro hu; subst hu; rfl
    · exact convertNoneConstantToNone_ne l
    · exact convertNoneConstantToNone_ne u
  · simp [ExpressionSliceLookup.make, hv] at hmk

/-- Witness for C7 at a concrete construction: the target version 2.0, an
explicit literal-none lower bound and an absent upper bound. -/
theorem claim_C7_slot_normalization_witness :
    ((({ expression := okAtom, lower := none, upper := none } :
        ExpressionSliceLookup).lower =
          convertNoneConstantToNone (some .constantNoneRef) ∧
      ({ expression := okAtom, lower := none, upper := none } :
        ExpressionSliceLookup).upper = convertNoneConstantToNone none) ∧
    ((some ExprNode.constantNoneRef : Option ExprNode) = some .constantNoneRef →
      ({ expression := okAtom, lower := none, upper := none } :
        ExpressionSliceLookup).lower = none) ∧
    ((none : Option ExprNode) = some .constantNoneRef →
      ({ expression := okAtom, lower := none, upper := none } :
        ExpressionSliceLookup).upper = none) ∧
    ({ expression := okAtom, lower := none, upper := none } :
      ExpressionSliceLookup).lower ≠ some ExprNode.constantNoneRef ∧
    ({ expression := okAtom, lower := none, upper := none } :
      ExpressionSliceLookup).upper ≠ some ExprNode.constantNoneRef ∧
    ∀ tc : TraceCollection,
      ({ expression := okAtom, lower := none, upper := none } :
          ExpressionSliceLookup).computeExpression tc =
        .delegatedSlice okAtom none none) :=
  claim_C7_slot_normalization { python_version := 200 } okAtom
    (some .constantNoneRef) none
    { expression := okAtom, lower := none, upper := none } rfl

/-- C10: for a slice-assignment or slice-deletion statement whose
lower-bound slot is structurally absent and whose refined upper bound
certainly raises (the children before it not), the replacement is built
from the tuple that still holds the absent lower slot as a placeholder
between the earlier refined children and the raising upper bound. -/
theorem claim_C10_absent_lower_placeholder (tc : TraceCollection)
    (n : StatementAssignmentSlice) (m : StatementDelSlice) (u w : ExprNode)
    (hnl : n.lower = none) (hnu : n.upper = some u)
    (hs : (tc.refine n.source).willRaiseException = false)
    (he : (tc.refine n.expression).willRaiseException = false)
    (hu : (tc.refine u).willRaiseException = true)
    (hml : m.lower = none) (hmu : m.upper = some w)
    (hme : (tc.refine m.expression).willRaiseException = false)
    (hw : (tc.refine w).willRaiseException = true) :
    ((n.computeStatement tc).replacementForm =
      some (.exprList [some (tc.refine n.source), some (tc.refine n.expression),
        none, some (tc.refine u)]) ∧
      (n.computeStatement tc).tag = some "new_raise") ∧
    ((m.computeStatement tc).replacementForm =
      some (.exprList [some (tc.refine m.expression), none, some (tc.refine w)]) ∧
      (m.computeStatement tc).tag = some "new_raise") := by
  constructor
  · constructor <;>
      simp [StatementAssignmentSlice.computeStatement, TraceCollection.onExpression,
        TraceCollection.onExpressionOpt, hnl, hnu, hs, he, hu, optWillRaise,
        makeStatementOnlyNodesFromExpressions, StmtComputeResult.replacementForm,
        StmtComputeResult.tag]
  · constructor <;>
      simp [StatementDelSlice.computeStatement, TraceCollection.onExpression,
        TraceCollection.onExpressionOpt, hml, hmu, hme, hw, optWillRaise,
        makeStatementOnlyNodesFromExpressions, StmtComputeResult.replacementForm,
        StmtComputeResult.tag]

/-- Witness for C10 at concrete statements with an absent lower bound and a
certainly-raising upper bound, under the identity refinement. -/
theorem claim_C10_absent_lower_placeholder_witness :
    (((StatementAssignmentSlice.mk okAtom okAtom none
        (some raiseAtom)).computeStatement idTrace).replacementForm =
      some (.exprList [some (idTrace.refine okAtom), some (idTrace.refine okAtom),
        none, some (idTrace.refine raiseAtom)]) ∧
      ((StatementAssignmentSlice.mk okAtom okAtom none
        (some raiseAtom)).computeStatement idTrace).tag = some "new_raise") ∧
    (((StatementDelSlice.mk okAtom none
        (some raiseAtom)).computeStatement idTrace).replacementForm =
      some (.exprList [some (idTrace.refine okAtom), none,
        some (idTrace.refine raiseAtom)]) ∧
      ((StatementDelSlice.mk okAtom none
        (some raiseAtom)).computeStatement idTrace).tag = some "new_raise") :=
  claim_C10_absent_lower_placeholder idTrace
    (StatementAssignmentSlice.mk okAtom okAtom none (some raiseAtom))
    (StatementDelSlice.mk okAtom none (some raiseAtom)) raiseAtom raiseAtom
    rfl rfl rfl rfl rfl rfl rfl rfl rfl

/-- C2: for a slice-deletion statement whose refined subject certainly
raises, the replacement evaluates only the subject, dropping the lower and
upper bounds entirely; when instead only the refined upper bound certainly
raises, the replacement evaluates the subject, then the lower bound, then
the upper bound, in that order, with the deletion removed and the outcome
tagged `new_raise`. -/
theorem claim_C2_del_short_circuit (tc : TraceCollection) (n m : StatementDelSlice)
    (a b : ExprNode)
    (hraise : (tc.refine n.expression).willRaiseException = true)
    (hml : m.lower = some a) (hmu : m.upper = some b)
    (hme : (tc.refine m.expression).willRaiseException = false)
    (hma : (tc.refine a).willRaiseException = false)
    (hmb : (tc.refine b).willRaiseException = true) :
    ((n.computeStatement tc).replacementForm =
      some (.exprOnly (tc.refine n.expression)) ∧
      (n.computeStatement tc).tag = some "new_raise") ∧
    ((m.computeStatement tc).replacementForm =
      some (.exprList [some (tc.refine m.expression), some (tc.refine a),
        some (tc.refine b)]) ∧
      (m.computeStatement tc).tag = some "new_raise") := by
  constructor
  · constructor <;>
      simp [StatementDelSlice.computeStatement, TraceCollection.onExpression, hraise,
        makeStatementExpressionOnlyReplacementNode, StmtComputeResult.replacementForm,
        StmtComputeResult.tag]
  · constructor <;>
      simp [StatementDelSlice.computeStatement, TraceCollection.onExpression,
        TraceCollection.onExpressionOpt, hml, hmu, hme, hma, hmb, optWillRaise,
        makeStatementOnlyNodesFromExpressions, StmtComputeResult.replacementForm,
        StmtComputeResult.tag]

/-- Witness for C2 at concrete deletions: a raising subject with both bounds
present, and a raising upper bound after a present non-raising lower bound,
under the identity refinement. -/
theorem claim_C2_del_short_circuit_witness :
    (((StatementDelSlice.mk raiseAtom (some okAtom)
        (some okAtom)).computeStatement idTrace).replacementForm =
      some (.exprOnly (idTrace.refine raiseAtom)) ∧
      ((StatementDelSlice.mk raiseAtom (some okAtom)
        (some okAtom)).computeStatement idTrace).tag = some "new_raise") ∧
    (((StatementDelSlice.mk okAtom (some okAtom)
        (some raiseAtom)).computeStatement idTrace).replacementForm =
      some (.exprList [some (idTrace.refine okAtom), some (idTrace.refine okAtom),
        some (idTrace.refine raiseAtom)]) ∧
      ((StatementDelSlice.mk okAtom (some okAtom)
        (some raiseAtom)).computeStatement idTrace).tag = some "new_raise") :=
  claim_C2_del_short_circuit idTrace
    (StatementDelSlice.mk raiseAtom (some okAtom) (some okAtom))
    (StatementDelSlice.mk okAtom (some okAtom) (some raiseAtom)) okAtom raiseAtom
    rfl rfl rfl rfl rfl rfl

/-- C1: for every slice-assignment rewrite, the children are refined in the
fixed order assigned value, subject, lower, upper; when the first refined
child that certainly raises sits at evaluation-order position `k`, the
rewrite returns a `new_raise` replacement whose evaluate-for-effect steps
are exactly the refined present children at positions 0..k, in original
order, the raising child last, and no child after position `k` appears. -/
theorem claim_C1_assign_short_circuit (tc : TraceCollection)
    (n : StatementAssignmentSlice) (k : Nat)
    (hk : firstRaiseIdx (n.refinedChildren tc) = some k) :
    (n.computeStatement tc).tag = some "new_raise" ∧
    (n.computeStatement tc).replacementSteps =
      some ((n.refinedChildren tc).take (k + 1)) ∧
    ∃ e, (n.refinedChildren tc).get? k = some e ∧ e.willRaiseException = true := by
  obtain ⟨e, he, hw⟩ := firstRaiseIdx_get _ _ hk
  have hany : (n.refinedChildren tc).any (fun x => x.willRaiseException) = true :=
    List.any_eq_true.mpr ⟨e, List.get?_mem he, hw⟩
  obtain ⟨htag, hsteps⟩ := assign_computeStatement_raise tc n hany
  exact ⟨htag, by rw [hsteps, firstRaiseIdx_take _ _ hk], e, he, hw⟩

/-- Witness for C1 at a concrete assignment whose refined subject is the
first raising child (position 1), under the identity refinement. -/
theorem claim_C1_assign_short_circuit_witness :
    firstRaiseIdx ((StatementAssignmentSlice.mk okAtom raiseAtom (some okAtom)
      none).refinedChildren idTrace) = some 1 ∧
    (((StatementAssignmentSlice.mk okAtom raiseAtom (some okAtom)
        none).computeStatement idTrace).tag = some "new_raise" ∧
      ((StatementAssignmentSlice.mk okAtom raiseAtom (some okAtom)
        none).computeStatement idTrace).replacementSteps =
        some (((StatementAssignmentSlice.mk okAtom raiseAtom (some okAtom)
          none).refinedChildren idTrace).take (1 + 1)) ∧
      ∃ e, ((StatementAssignmentSlice.mk okAtom raiseAtom (some okAtom)
        none).refinedChildren idTrace).get? 1 = some e ∧
        e.willRaiseException = true) :=
  ⟨rfl, claim_C1_assign_short_circuit idTrace
    (StatementAssignmentSlice.mk okAtom raiseAtom (some okAtom) none) 1 rfl⟩

/-- C8 counterexample: a slice assignment whose assigned value certainly
raises, under the identity refinement — its children are unchanged by
refinement, yet the rewrite outcome is a `new_raise` replacement, not
"unchanged". -/
theorem claim_C8_idempotence_counterexample :
    idTrace.refine raiseAtom = raiseAtom ∧ idTrace.refine okAtom = okAtom ∧
    ((StatementAssignmentSlice.mk okAtom raiseAtom none none).computeStatement
      idTrace).withDefaultHooks ≠ .unchanged :=
  ⟨rfl, rfl, fun h => StmtRewriteOutcome.noConfusion h⟩

/-- C8 (amended): for every node of the slice family the rewrite step is a
pure function of the node and the trace collection, so two invocations on
an unchanged node return identical outcomes; the outcome is "unchanged" on
both invocations provided no refined child certainly raises — and, for the
builtin-construction kinds, the refined arguments do not all fold to a
compile-time constant.  The slice lookup needs no proviso: it always
delegates, and the default hook answers "unchanged". -/
theorem claim_C8_idempotence_amended (tc : TraceCollection)
    (n : StatementAssignmentSlice) (m : StatementDelSlice)
    (lk : ExpressionSliceLookup) (b : ExpressionBuiltinSlice2)
    (b3 : ExpressionBuiltinSlice3)
    (hn : (n.refinedChildren tc).any (fun e => e.willRaiseException) = false)
    (hm : (m.refinedChildren tc).any (fun e => e.willRaiseException) = false)
    (hbraise1 : (tc.refine b.start).willRaiseException = false)
    (hbraise2 : (tc.refine b.stop).willRaiseException = false)
    (hbconst : ¬((tc.refine b.start).isCompileTimeConstant = true ∧
      (tc.refine b.stop).isCompileTimeConstant = true))
    (hb3raise1 : (tc.refine b3.start).willRaiseException = false)
    (hb3raise2 : (tc.refine b3.stop).willRaiseException = false)
    (hb3raise3 : (tc.refine b3.step).willRaiseException = false)
    (hb3const : ¬((tc.refine b3.start).isCompileTimeConstant = true ∧
      (tc.refine b3.stop).isCompileTimeConstant = true ∧
      (tc.refine b3.step).isCompileTimeConstant = true)) :
    ((n.computeStatement tc).withDefaultHooks = .unchanged ∧
      (n.computeStatement tc).withDefaultHooks = .unchanged) ∧
    ((m.computeStatement tc).withDefaultHooks = .unchanged ∧
      (m.computeStatement tc).withDefaultHooks = .unchanged) ∧
    ((lk.computeExpression tc).withDefaultHook = .unchanged ∧
      (lk.computeExpression tc).withDefaultHook = .unchanged) ∧
    (b.computeExpression tc = .unchanged ∧ b.computeExpression tc = .unchanged) ∧
    (b3.computeExpression tc = .unchanged ∧ b3.computeExpression tc = .unchanged) := by
  have h1 : (n.computeStatement tc).withDefaultHooks = .unchanged := by
    rw [assign_computeStatement_noraise tc n hn]
    rfl
  have h2 : (m.computeStatement tc).withDefaultHooks = .unchanged := by
    rw [del_computeStatement_noraise tc m hm]
    rfl
  have h3 : (lk.computeExpression tc).withDefaultHook = .unchanged := rfl
  have h4 : b.computeExpression tc = .unchanged := by
    simp [ExpressionBuiltinSlice2.computeExpression, computeBuiltinSpec, hbraise1,
      hbraise2, hbconst]
  have h5 : b3.computeExpression tc = .unchanged := by
    simp [ExpressionBuiltinSlice3.computeExpression, computeBuiltinSpec, hb3raise1,
      hb3raise2, hb3raise3, hb3const]
  exact ⟨⟨h1, h1⟩, ⟨h2, h2⟩, ⟨h3, h3⟩, ⟨h4, h4⟩, h5, h5⟩

/-- Witness for the amended C8 at concrete nodes of all five kinds with
non-raising, non-constant children, under the identity refinement. -/
theorem claim_C8_idempotence_amended_witness :
    (((StatementAssignmentSlice.mk okAtom okAtom none none).computeStatement
        idTrace).withDefaultHooks = .unchanged ∧
      ((StatementAssignmentSlice.mk okAtom okAtom none none).computeStatement
        idTrace).withDefaultHooks = .unchanged) ∧
    (((StatementDelSlice.mk okAtom none none).computeStatement
        idTrace).withDefaultHooks = .unchanged ∧
      ((StatementDelSlice.mk okAtom none none).computeStatement
        idTrace).withDefaultHooks = .unchanged) ∧
    (((ExpressionSliceLookup.mk okAtom none none).computeExpression
        idTrace).withDefaultHook = .unchanged ∧
      ((ExpressionSliceLookup.mk okAtom none none).computeExpression
        idTrace).withDefaultHook = .unchanged) ∧
    ((ExpressionBuiltinSlice2.mk okAtom okAtom).computeExpression idTrace =
        .unchanged ∧
      (ExpressionBuiltinSlice2.mk okAtom okAtom).computeExpression idTrace =
        .unchanged) ∧
    ((ExpressionBuiltinSlice3.mk okAtom okAtom okAtom).computeExpression idTrace =
        .unchanged ∧
      (ExpressionBuiltinSlice3.mk okAtom okAtom okAtom).computeExpression idTrace =
        .unchanged) :=
  claim_C8_idempotence_amended idTrace
    (StatementAssignmentSlice.mk okAtom okAtom none none)
    (StatementDelSlice.mk okAtom none none)
    (ExpressionSliceLookup.mk okAtom none none)
    (ExpressionBuiltinSlice2.mk okAtom okAtom)
    (ExpressionBuiltinSlice3.mk okAtom okAtom okAtom) rfl rfl rfl rfl
    (by simp [idTrace, okAtom, ExprNode.isCompileTimeConstant]) rfl rfl rfl
    (by simp [idTrace, okAtom, ExprNode.isCompileTimeConstant])

/-- C3: every slice-family rewrite step — slice assignment, slice deletion,
slice lookup, and the 2- and 3-argument builtin slice constructions —
preserves the observable behavior of the rewritten node: the effect trace
and the raised exception, hence the multiset, order and category of raised
exceptions, for every input semantics `sem`.  Hypotheses: the certain-raise
oracle is sound for `sem`, the trace collection's refinement is
semantics-preserving, a compile-time constant that does not certainly raise
evaluates with no effect and no raise, and (for the construction kinds) no
refined argument is flagged both compile-time constant and certainly
raising.  A sequence of such steps preserves the observables by
transitivity of equality. -/
theorem claim_C3_rewrite_preserves_observables (sem : ExprNode → Behavior)
    (tc : TraceCollection)
    (hrefine : ∀ e, sem (tc.refine e) = sem e)
    (hsound : ∀ e, e.willRaiseException = true → (sem e).raised.isSome)
    (hpure : ∀ e, e.isCompileTimeConstant = true → e.willRaiseException = false →
      sem e = { effects := [], raised := none }) :
    (∀ (n : StatementAssignmentSlice) (setOp delOp : Behavior),
      (n.computeStatement tc).observe sem setOp delOp = n.observe sem setOp) ∧
    (∀ (m : StatementDelSlice) (setOp delOp : Behavior),
      (m.computeStatement tc).observe sem setOp delOp = m.observe sem delOp) ∧
    (∀ (lk : ExpressionSliceLookup) (readOp : Behavior),
      (lk.computeExpression tc).observe sem readOp = lk.observe sem readOp) ∧
    (∀ b : ExpressionBuiltinSlice2,
      (∀ x ∈ b.argsInEvalOrder.map tc.refine, x.isCompileTimeConstant = true →
        x.willRaiseException = false) →
      (b.computeExpression tc).observe sem (b.observe sem) = b.observe sem) ∧
    (∀ b3 : ExpressionBuiltinSlice3,
      (∀ x ∈ b3.argsInEvalOrder.map tc.refine, x.isCompileTimeConstant = true →
        x.willRaiseException = false) →
      (b3.computeExpression tc).observe sem (b3.observe sem) = b3.observe sem) := by
  refine ⟨?_, ?_, ?_, ?_, ?_⟩
  · intro n setOp delOp
    cases hany : (n.refinedChildren tc).any (fun x => x.willRaiseException) with
    | false =>
      rw [assign_computeStatement_noraise tc n hany]
      show (runSteps sem (n.refinedChildren tc)).seq setOp = n.observe sem setOp
      rw [assign_refinedChildren_eq_map, runSteps_map_refine sem tc hrefine]
      rfl
    | true =>
      obtain ⟨htag, hsteps⟩ := assign_computeStatement_raise tc n hany
      rcases hres : n.computeStatement tc with ⟨rep, t, d⟩ | ⟨subj, lo, up, v⟩ | ⟨subj, lo, up⟩
      · rw [hres] at hsteps
        have hstep2 : rep.steps = throughFirstRaise (n.refinedChildren tc) := by
          simpa [StmtComputeResult.replacementSteps] using hsteps
        show runSteps sem rep.steps = n.observe sem setOp
        rw [hstep2, ← runSteps_through_eq sem hsound _ hany setOp]
        rw [assign_refinedChildren_eq_map, runSteps_map_refine sem tc hrefine]
        rfl
      · rw [hres] at htag
        exact absurd htag (by simp [StmtComputeResult.tag])
      · rw [hres] at htag
        exact absurd htag (by simp [StmtComputeResult.tag])
  · intro m setOp delOp
    cases hany : (m.refinedChildren tc).any (fun x => x.willRaiseException) with
    | false =>
      rw [del_computeStatement_noraise tc m hany]
      show (runSteps sem (m.refinedChildren tc)).seq delOp = m.observe sem delOp
      rw [del_refinedChildren_eq_map, runSteps_map_refine sem tc hrefine]
      rfl
    | true =>
      obtain ⟨htag, hsteps⟩ := del_computeStatement_raise tc m hany
      rcases hres : m.computeStatement tc with ⟨rep, t, d⟩ | ⟨subj, lo, up, v⟩ | ⟨subj, lo, up⟩
      · rw [hres] at hsteps
        have hstep2 : rep.steps = throughFirstRaise (m.refinedChildren tc) := by
          simpa [StmtComputeResult.replacementSteps] using hsteps
        show runSteps sem rep.steps = m.observe sem delOp
        rw [hstep2, ← runSteps_through_eq sem hsound _ hany delOp]
        rw [del_refinedChildren_eq_map, runSteps_map_refine sem tc hrefine]
        rfl
      · rw [hres] at htag
        exact absurd htag (by simp [StmtComputeResult.tag])
      · rw [hres] at htag
        exact absurd htag (by simp [StmtComputeResult.tag])
  · intro lk readOp
    rfl
  · intro b hcoh
    exact computeBuiltinSpec_preserves sem tc hrefine hsound hpure
      b.argsInEvalOrder hcoh
  · intro b3 hcoh
    exact computeBuiltinSpec_preserves sem tc hrefine hsound hpure
      b3.argsInEvalOrder hcoh

/-- Witness for C3 at a concrete semantics (the oracle-agreeing one, which
raises category 0 exactly on certain-raise nodes) and the identity
refinement. -/
theorem claim_C3_rewrite_preserves_observables_witness :
    (∀ (n : StatementAssignmentSlice) (setOp delOp : Behavior),
      (n.computeStatement idTrace).observe oracleSem setOp delOp =
        n.observe oracleSem setOp) ∧
    (∀ (m : StatementDelSlice) (setOp delOp : Behavior),
      (m.computeStatement idTrace).observe oracleSem setOp delOp =
        m.observe oracleSem delOp) ∧
    (∀ (lk : ExpressionSliceLookup) (readOp : Behavior),
      (lk.computeExpression idTrace).observe oracleSem readOp =
        lk.observe oracleSem readOp) ∧
    (∀ b : ExpressionBuiltinSlice2,
      (∀ x ∈ b.argsInEvalOrder.map idTrace.refine, x.isCompileTimeConstant = true →
        x.willRaiseException = false) →
      (b.computeExpression idTrace).observe oracleSem (b.observe oracleSem) =
        b.observe oracleSem) ∧
    (∀ b3 : ExpressionBuiltinSlice3,
      (∀ x ∈ b3.argsInEvalOrder.map idTrace.refine, x.isCompileTimeConstant = true →
        x.willRaiseException = false) →
      (b3.computeExpression idTrace).observe oracleSem (b3.observe oracleSem) =
        b3.observe oracleSem) :=
  claim_C3_rewrite_preserves_observables oracleSem idTrace (fun _ => rfl)
    (fun e h => by simp [oracleSem, h])
    (fun e hc hw => by simp [oracleSem, hw])

end SliceNodes
